import Mathlib

/-!
Verification of the `@osd/optimizer` on-disk build-artifact cache
(`packages/osd-optimizer/src/node/cache.ts` in OpenSearch Dashboards).

The development shallowly embeds the `Cache` class: the four LMDB
namespaces become explicit association lists, the asynchronous storage
layer becomes a fault oracle (each get/put either succeeds or throws),
and the JavaScript `JSON` builtin is modelled by an executable
serializer/parser pair over an inductive value type.  Machine work such
as `Date.now()` and `process.cwd()` is passed in explicitly through an
environment record.
-/

namespace OsdCache

/-! ## The JSON runtime model

`JSON.stringify` / `JSON.parse` are JavaScript builtins, not repository
code.  They are modelled over an inductive value type: numbers are kept
as integers (source maps only store integral fields), objects keep
insertion order, and `stringify` emits the compact form (no whitespace)
that the builtin produces. -/

inductive Json where
  | null : Json
  | bool : Bool → Json
  | num : Int → Json
  | str : String → Json
  | arr : List Json → Json
  | obj : List (String × Json) → Json
deriving Repr

/-- Decimal digit character for `n < 10`. -/
def digitCh (n : Nat) : Char := Char.ofNat (48 + n)

/-- `isDigitCh c` holds on `'0'..'9'`. -/
def isDigitCh (c : Char) : Bool := 48 ≤ c.toNat && c.toNat ≤ 57

/-- Decimal digits, most significant first (`fuel` bounds the recursion
depth so the definition is structural and kernel-reducible). -/
def natCharsAux : Nat → Nat → List Char
  | 0, _ => []
  | fuel + 1, n =>
    if n < 10 then [digitCh n]
    else natCharsAux fuel (n / 10) ++ [digitCh (n % 10)]

/-- Decimal digits of a natural number, most significant first. -/
def natChars (n : Nat) : List Char := natCharsAux (n + 1) n

/-- Decimal rendering of an integer. -/
def intChars (i : Int) : List Char :=
  if i < 0 then '-' :: natChars i.natAbs else natChars i.toNat

/-- String-literal escaping done by `JSON.stringify` (the escapes a
source-map payload can contain). -/
def escChar (c : Char) : List Char :=
  if c = '"' then ['\\', '"']
  else if c = '\\' then ['\\', '\\']
  else if c = '\n' then ['\\', 'n']
  else if c = '\t' then ['\\', 't']
  else if c = '\r' then ['\\', 'r']
  else [c]

/-- Serialized form of a string literal, quotes included. -/
def serStr (s : String) : List Char := '"' :: (s.data.flatMap escChar ++ ['"'])

mutual

/-- `JSON.stringify` on a value (compact form, character list). -/
def serVal : Json → List Char
  | .null => "null".data
  | .bool true => "true".data
  | .bool false => "false".data
  | .num i => intChars i
  | .str s => serStr s
  | .arr [] => "[]".data
  | .arr (j :: js) => '[' :: (serVal j ++ serArrTail js)
  | .obj [] => "\x7b\x7d".data
  | .obj ((k, v) :: fs) => '{' :: (serStr k ++ ':' :: (serVal v ++ serObjTail fs))

/-- Serialized form of the elements after the first, up to and including `']'`. -/
def serArrTail : List Json → List Char
  | [] => [']']
  | j :: js => ',' :: (serVal j ++ serArrTail js)

/-- Serialized form of the members after the first, up to and including `'}'`. -/
def serObjTail : List (String × Json) → List Char
  | [] => ['}']
  | (k, v) :: fs => ',' :: (serStr k ++ ':' :: (serVal v ++ serObjTail fs))

end

/-- `JSON.stringify` as a `String`-valued function. -/
def jsStringify (j : Json) : String := String.mk (serVal j)

/-- Inverse of the escape table. -/
def unescCh (c : Char) : Option Char :=
  if c = '"' then some '"'
  else if c = '\\' then some '\\'
  else if c = 'n' then some '\n'
  else if c = 't' then some '\t'
  else if c = 'r' then some '\r'
  else none

/-- Parse a string-literal body after the opening quote, returning the
decoded characters and the remainder after the closing quote. -/
def parseStrBody : List Char → Option (List Char × List Char)
  | [] => none
  | c :: rest =>
    if c = '"' then some ([], rest)
    else if c = '\\' then
      match rest with
      | [] => none
      | e :: rest' =>
        match unescCh e, parseStrBody rest' with
        | some d, some (s, r) => some (d :: s, r)
        | _, _ => none
    else
      match parseStrBody rest with
      | some (s, r) => some (c :: s, r)
      | none => none

/-- Accumulate a run of decimal digits (greedy). -/
def parseDigitsAux : Nat → List Char → Nat × List Char
  | acc, [] => (acc, [])
  | acc, c :: rest =>
    if isDigitCh c then parseDigitsAux (acc * 10 + (c.toNat - 48)) rest
    else (acc, c :: rest)

/-- Parse a nonempty digit run into a natural number. -/
def parseNatTok (s : List Char) : Option (Nat × List Char) :=
  match s with
  | c :: _ => if isDigitCh c then some (parseDigitsAux 0 s) else none
  | [] => none

/-- Parse a JSON number token (optional minus sign, digit run). -/
def parseNumTok (s : List Char) : Option (Json × List Char) :=
  match s with
  | '-' :: r => (parseNatTok r).map fun p => (Json.num (-(p.1 : Int)), p.2)
  | _ => (parseNatTok s).map fun p => (Json.num ((p.1 : Int)), p.2)

/-- Match an exact literal tail (for `null`/`true`/`false`). -/
def stripLit : List Char → List Char → Option (List Char)
  | [], s => some s
  | _ :: _, [] => none
  | c :: cs, d :: s => if c = d then stripLit cs s else none

mutual

/-- Fuel-indexed `JSON.parse` of one value. -/
def parseVal : Nat → List Char → Option (Json × List Char)
  | 0, _ => none
  | fuel + 1, s =>
    match s with
    | [] => none
    | c :: r =>
      if c = 'n' then (stripLit ['u', 'l', 'l'] r).map fun r' => (Json.null, r')
      else if c = 't' then (stripLit ['r', 'u', 'e'] r).map fun r' => (Json.bool true, r')
      else if c = 'f' then (stripLit ['a', 'l', 's', 'e'] r).map fun r' => (Json.bool false, r')
      else if c = '"' then (parseStrBody r).map fun p => (Json.str (String.mk p.1), p.2)
      else if c = '[' then
        match r with
        | ']' :: r' => some (Json.arr [], r')
        | _ =>
          match parseVal fuel r with
          | some (j, r') =>
            match parseArrTail fuel r' with
            | some (js, r'') => some (Json.arr (j :: js), r'')
            | none => none
          | none => none
      else if c = '{' then
        match r with
        | '}' :: r' => some (Json.obj [], r')
        | '"' :: r' =>
          match parseStrBody r' with
          | some (k, r1) =>
            match r1 with
            | ':' :: r2 =>
              match parseVal fuel r2 with
              | some (v, r3) =>
                match parseObjTail fuel r3 with
                | some (fs, r4) => some (Json.obj ((String.mk k, v) :: fs), r4)
                | none => none
              | none => none
            | _ => none
          | none => none
        | _ => none
      else parseNumTok (c :: r)

/-- Parse `']'` or `',' value …` after an array element. -/
def parseArrTail : Nat → List Char → Option (List Json × List Char)
  | 0, _ => none
  | fuel + 1, s =>
    match s with
    | ']' :: r => some ([], r)
    | ',' :: r =>
      match parseVal fuel r with
      | some (j, r') =>
        match parseArrTail fuel r' with
        | some (js, r'') => some (j :: js, r'')
        | none => none
      | none => none
    | _ => none

/-- Parse `'}'` or `',' member …` after an object member. -/
def parseObjTail : Nat → List Char → Option (List (String × Json) × List Char)
  | 0, _ => none
  | fuel + 1, s =>
    match s with
    | '}' :: r => some ([], r)
    | ',' :: r =>
      match r with
      | '"' :: r' =>
        match parseStrBody r' with
        | some (k, r1) =>
          match r1 with
          | ':' :: r2 =>
            match parseVal fuel r2 with
            | some (v, r3) =>
              match parseObjTail fuel r3 with
              | some (fs, r4) => some ((String.mk k, v) :: fs, r4)
              | none => none
            | none => none
          | _ => none
        | none => none
      | _ => none
    | _ => none

end

/-- `JSON.parse`: parse a complete document, rejecting trailing input.
`none` models the `SyntaxError` the builtin throws. -/
def parseJson (s : String) : Option Json :=
  match parseVal (s.data.length + 1) s.data with
  | some (j, []) => some j
  | _ => none

/-- A remainder that cannot extend a serialized number: empty or headed
by a non-digit.  Every delimiter a serialized document produces
(`','`, `']'`, `'}'`, end of input) qualifies. -/
def headNotDigit : List Char → Bool
  | [] => true
  | c :: _ => !isDigitCh c

/-! ## The Node `path` module (POSIX host)

The cache runs on the host platform's `Path` module.  The model fixes
the POSIX flavour: `Path.sep = '/'` and absolute paths start with `'/'`.
`process.cwd()` is passed explicitly (field `cwd` of `Env`). -/

/-- The host path separator (`Path.sep`); POSIX host. -/
def hostSep : Char := '/'

/-- `Path.isAbsolute` on a POSIX host. -/
def isAbsolutePath (s : String) : Bool := s.data.head? = some '/'

/-- Split a character list on a separator (keeping empty pieces). -/
def splitChar (sep : Char) : List Char → List (List Char)
  | [] => [[]]
  | c :: rest =>
    match splitChar sep rest with
    | [] => [[c]]
    | seg :: segs =>
      if c = sep then [] :: seg :: segs else (c :: seg) :: segs

/-- Raw `/`-separated components of a path, empty components dropped. -/
def rawSegs (s : String) : List String :=
  ((splitChar '/' s.data).filter (fun seg => seg ≠ [])).map String.mk

/-- Resolve `"."` and `".."` components (a leading `".."` above the root
is dropped, as for absolute POSIX paths). -/
def normSegs (segs : List String) : List String :=
  segs.foldl
    (fun acc seg =>
      if seg = "." then acc
      else if seg = ".." then acc.dropLast
      else acc ++ [seg])
    []

/-- Join components under the root. -/
def joinSegs : List String → String
  | [] => ""
  | [s] => s
  | s :: rest => s ++ "/" ++ joinSegs rest

/-- Components of `Path.resolve(cwd, p)`. -/
def resolveSegs (cwd p : String) : List String :=
  if isAbsolutePath p then normSegs (rawSegs p)
  else normSegs (rawSegs cwd ++ rawSegs p)

/-- `Path.resolve` with one argument (resolves against `cwd`). -/
def resolvePath (cwd p : String) : String :=
  "/" ++ joinSegs (resolveSegs cwd p)

/-- Drop the longest common prefix of two component lists. -/
def dropCommonPre : List String → List String → List String × List String
  | a :: as_, b :: bs =>
    if a = b then dropCommonPre as_ bs else (a :: as_, b :: bs)
  | as_, bs => (as_, bs)

/-- `Path.relative(fromP, toP)` on a POSIX host. -/
def relativePath (cwd fromP toP : String) : String :=
  let p := dropCommonPre (resolveSegs cwd fromP) (resolveSegs cwd toP)
  joinSegs (p.1.map (fun _ => "..") ++ p.2)

/-- Is `root` an ancestor of (or equal to) the resolved path `p`? -/
def isAncestorRoot (cwd root p : String) : Bool :=
  (resolveSegs cwd root).isPrefixOf (resolveSegs cwd p)

/-- Modelled from the spec: `getMatchingRoot` comes from the
`@osd/cross-platform` package, whose source is not part of this corpus.
The spec says to "select the configured root (from an ordered set of
absolute root directories) that is an ancestor of the resolved path",
so the model returns the first root in order that is an ancestor of
`resolvedPath`, and `none` when no root matches. -/
def getMatchingRoot (cwd resolvedPath : String) (roots : List String) : Option String :=
  roots.find? (fun r => isAncestorRoot cwd r resolvedPath)

/-! ## The `Cache` class

State that the JavaScript runtime keeps implicitly. -/

/-- Process-wide runtime values: `process.cwd()` (used by
`Path.resolve`) and the module-level `GLOBAL_ATIME` string captured from
`Date.now()` at process start. -/
structure Env where
  cwd : String
  globalAtime : String

/-- The four LMDB namespaces, each an association list from cache key to
string value. -/
structure Store where
  atimes : List (String × String)
  hashes : List (String × String)
  codes : List (String × String)
  sourceMaps : List (String × String)
deriving Repr, DecidableEq

/-- Names of the four namespaces. -/
inductive Ns where
  | atimes | hashes | codes | sourceMaps
deriving Repr, DecidableEq

/-- The namespace table selected by a name. -/
def nsGet (st : Store) : Ns → List (String × String)
  | .atimes => st.atimes
  | .hashes => st.hashes
  | .codes => st.codes
  | .sourceMaps => st.sourceMaps

/-- Replace one namespace table. -/
def nsSet (st : Store) : Ns → List (String × String) → Store
  | .atimes, m => { st with atimes := m }
  | .hashes, m => { st with hashes := m }
  | .codes, m => { st with codes := m }
  | .sourceMaps, m => { st with sourceMaps := m }

/-- Remove a key from one association list. -/
def eraseEntry (k : String) (m : List (String × String)) : List (String × String) :=
  m.filter (fun e => e.1 ≠ k)

/-- Insert-or-overwrite a key in one association list. -/
def putEntry (k v : String) (m : List (String × String)) : List (String × String) :=
  (k, v) :: eraseEntry k m

/-- The storage-fault oracle: which backing-store `get`/`put` calls
throw.  `Cache` must behave well for every oracle. -/
structure Faults where
  getFault : Ns → String → Bool
  putFault : Ns → String → Bool

/-- The oracle under which no storage call throws. -/
def noFaults : Faults := ⟨fun _ _ => false, fun _ _ => false⟩

/-- An in-memory cache instance: the constructor-validated fields plus
the list of store handles that were opened (`codes` root database and
the three sub-databases, in source order). -/
structure CacheInst where
  pathRoots : List String
  cachePrefix : String
  openedDbs : List String
deriving Repr, DecidableEq

/-- The `pathRoot` constructor option: a single root or an array
(`string | string[]` in the source). -/
inductive PathRootConfig where
  | single : String → PathRootConfig
  | many : List String → PathRootConfig

/-- Constructor options (`dir` and the log sink do not affect the
modelled behaviour). -/
structure CacheConfig where
  pathRoot : PathRootConfig
  cachePrefix : String

/-- `Array.isArray(config.pathRoot) ? config.pathRoot : [config.pathRoot]`. -/
def configRoots : PathRootConfig → List String
  | .single s => [s]
  | .many rs => rs

/-- The error message thrown for a non-absolute root. -/
def absRootError : String := "cache requires an absolute path to resolve paths relative to"

/-- The `Cache` constructor: validates that every root is absolute
before any store handle is opened; on success opens the `codes` root
database and the `atimes`/`hashes`/`sourceMaps` sub-databases. -/
def cacheConstructor (config : CacheConfig) : Except String CacheInst :=
  let pathRoots := configRoots config.pathRoot
  if pathRoots.all isAbsolutePath then
    Except.ok
      { pathRoots := pathRoots
        cachePrefix := config.cachePrefix
        openedDbs := ["codes", "atimes", "hashes", "sourceMaps"] }
  else Except.error absRootError

/-- `Cache.getKey`: resolve the path, pick the matching root (falling
back to the first configured root when `getMatchingRoot` returns a
falsy value), relativize, normalize separators, and prepend the prefix. -/
def getKey (env : Env) (inst : CacheInst) (path : String) : String :=
  let resolvedPath := resolvePath env.cwd path
  let pathRoot :=
    match getMatchingRoot env.cwd resolvedPath inst.pathRoots with
    | some r => if r = "" then inst.pathRoots.headD "" else r
    | none => inst.pathRoots.headD ""
  let normalizedPath :=
    if hostSep ≠ '/' then
      joinSegs ((relativePath env.cwd pathRoot resolvedPath).splitOn (String.mk [hostSep]))
    else relativePath env.cwd pathRoot resolvedPath
  inst.cachePrefix ++ normalizedPath

/-- `Cache.safeGet`: a backing-store read; a throw is caught, logged and
turned into an absent result. -/
def safeGet (faults : Faults) (ns : Ns) (key : String) (st : Store) : Option String :=
  if faults.getFault ns key then none else (nsGet st ns).lookup key

/-- `Cache.safePut`: a backing-store write; a throw is caught and
logged, leaving the namespace unchanged. -/
def safePut (faults : Faults) (ns : Ns) (key value : String) (st : Store) : Store :=
  if faults.putFault ns key then st else nsSet st ns (putEntry key value (nsGet st ns))

/-- `Cache.getFileHash`: a pure read of the `hashes` namespace.  The
returned pair carries the (unchanged) store to make the absence of
writes explicit. -/
def getFileHash (env : Env) (faults : Faults) (inst : CacheInst) (path : String)
    (st : Store) : Option String × Store :=
  (safeGet faults .hashes (getKey env inst path) st, st)

/-- `Cache.getCode`: read `codes`; on a hit additionally write the
generation marker into `atimes` for the same key. -/
def getCode (env : Env) (faults : Faults) (inst : CacheInst) (path : String)
    (st : Store) : Option String × Store :=
  let key := getKey env inst path
  match safeGet faults .codes key st with
  | some code => (some code, safePut faults .atimes key env.globalAtime st)
  | none => (none, st)

/-- The `SyntaxError` that `JSON.parse` throws on malformed input. -/
def jsonSyntaxError : String := "SyntaxError: Unexpected token in JSON"

/-- `Cache.getSourceMap`: read `sourceMaps` and, when a string is
stored, feed it to `JSON.parse` — whose `SyntaxError` propagates to the
caller (`Except.error`). -/
def getSourceMap (env : Env) (faults : Faults) (inst : CacheInst) (path : String)
    (st : Store) : Except String (Option Json) :=
  match safeGet faults .sourceMaps (getKey env inst path) st with
  | some map =>
    match parseJson map with
    | some j => Except.ok (some j)
    | none => Except.error jsonSyntaxError
  | none => Except.ok none

/-- The value passed for `file.map`: either a serializable JSON value
or a value on which `JSON.stringify` itself throws (a cyclic
structure). -/
inductive MapVal where
  | json : Json → MapVal
  | cyclic : MapVal

/-- The `TypeError` thrown by `JSON.stringify` on a cyclic structure. -/
def circularError : String := "TypeError: Converting circular structure to JSON"

/-- `JSON.stringify` on a `file.map` argument. -/
def jsStringifyVal : MapVal → Except String String
  | .json j => Except.ok (jsStringify j)
  | .cyclic => Except.error circularError

/-- The `{ filehash, code, map }` argument of `Cache.update`. -/
structure FileEntry where
  filehash : String
  code : String
  map : MapVal

/-- Result of `Cache.update`: the store after the call and, when the
returned promise rejects, the propagated error.  JavaScript evaluates
the `Promise.all` array left to right, so the `atimes`, `hashes` and
`codes` writes are initiated before `JSON.stringify(file.map)` runs;
when serialization throws, those writes stand and the promise rejects. -/
structure UpdateResult where
  store : Store
  rejected : Option String
deriving Repr, DecidableEq

/-- `Cache.update`: derive the key once, then write the generation
marker, the hash, the code and the serialized source map, each through
`safePut` (individual write failures are swallowed). -/
def update (env : Env) (faults : Faults) (inst : CacheInst) (path : String)
    (file : FileEntry) (st : Store) : UpdateResult :=
  let key := getKey env inst path
  let st1 := safePut faults .atimes key env.globalAtime st
  let st2 := safePut faults .hashes key file.filehash st1
  let st3 := safePut faults .codes key file.code st2
  match jsStringifyVal file.map with
  | Except.ok mapStr => ⟨safePut faults .sourceMaps key mapStr st3, none⟩
  | Except.error e => ⟨st3, some e⟩

/-! ## The pruning sweep -/

/-- Milliseconds per day (`DAY` in the source). -/
def dayMs : Int := 86400000

/-- JavaScript `parseInt(s, 10)`: skip whitespace, optional sign, then
a leading decimal digit run; `none` models `NaN`. -/
def jsWhitespace (c : Char) : Bool :=
  c = ' ' || c = '\t' || c = '\n' || c = '\r' || c = '\x0b' || c = '\x0c'

/-- Leading digit run of a character list as a natural number. -/
def leadingDigits (cs : List Char) : Option Nat :=
  match cs with
  | c :: _ => if isDigitCh c then some (parseDigitsAux 0 cs).1 else none
  | [] => none

/-- `parseInt(s, 10)`. -/
def jsParseInt (s : String) : Option Int :=
  match s.data.dropWhile jsWhitespace with
  | '-' :: r => (leadingDigits r).map fun n => -(n : Int)
  | '+' :: r => (leadingDigits r).map fun n => (n : Int)
  | t => (leadingDigits t).map fun n => (n : Int)

/-- The sweep's classification: an entry is stale when its timestamp
fails to parse (`Number.isNaN`) or is older than the limit. -/
def staleEntry (limit : Int) (value : String) : Bool :=
  match jsParseInt value with
  | none => true
  | some atime => atime < limit

/-- The sweep's batch size (`BATCH_SIZE`). -/
def batchSize : Nat := 1000

/-- Keys removed by the sweep's loop over the `atimes` range: entries
are classified into `invalid`/`valid`; whenever the two buckets reach
`batchSize` the invalid keys are flushed (removed) and both buckets
reset.  When the range ends, whatever sits in the buckets is abandoned —
exactly as in the source, whose loop body is the only place a flush
happens. -/
def pruneCollect (limit : Int) :
    List (String × String) → List String → List String → List String
  | [], _, _ => []
  | (k, v) :: rest, invalid, valid =>
    let invalid' := if staleEntry limit v then invalid ++ [k] else invalid
    let valid' := if staleEntry limit v then valid else valid ++ [k]
    if batchSize ≤ invalid'.length + valid'.length then
      invalid' ++ pruneCollect limit rest [] []
    else pruneCollect limit rest invalid' valid'

/-- Remove a key from all four namespaces. -/
def removeKeyAll (k : String) (st : Store) : Store :=
  { atimes := eraseEntry k st.atimes
    hashes := eraseEntry k st.hashes
    codes := eraseEntry k st.codes
    sourceMaps := eraseEntry k st.sourceMaps }

/-- `Cache.pruneOldKeys` under the claims' assumptions (no storage
errors, no interleaved writers): iterate the `atimes` range, classify
against `Date.now() - 30 * DAY`, and remove each flushed stale key from
all four namespaces. -/
def pruneOldKeys (nowMs : Int) (st : Store) : Store :=
  let limit := nowMs - 30 * dayMs
  (pruneCollect limit st.atimes [] []).foldl (fun s k => removeKeyAll k s) st

/-! ## The spec's description of key derivation

Used by the refinement claim about `getKey`; this definition follows the
spec's own wording, to be compared with the source-derived `getKey`. -/

/-- Replace every occurrence of the host separator by `'/'`. -/
def replaceSepBySlash (sep : Char) (s : String) : String :=
  String.mk (s.data.map fun c => if c = sep then '/' else c)

/-- The spec's key computation: the prefix, concatenated with the path
of the resolved input relative to the first configured root that is an
ancestor of it (or to the first root when none is), with every host
separator replaced by `'/'`. -/
def specKey (env : Env) (pathRoots : List String) (pfx : String) (path : String) : String :=
  let resolvedPath := resolvePath env.cwd path
  let root :=
    match pathRoots.find? (fun r => isAncestorRoot env.cwd r resolvedPath) with
    | some r => r
    | none => pathRoots.headD ""
  pfx ++ replaceSepBySlash hostSep (relativePath env.cwd root resolvedPath)

/-! ## Concrete fixtures used by witnesses and counterexamples -/

/-- A sample process environment. -/
def sampleEnv : Env := ⟨"/cwd", "1700000000000"⟩

/-- A single-root instance with prefix `v1:`. -/
def repoInst : CacheInst := ⟨["/repo"], "v1:", ["codes", "atimes", "hashes", "sourceMaps"]⟩

/-- A two-root instance with prefix `p:`. -/
def twoRootInst : CacheInst := ⟨["/a", "/b"], "p:", ["codes", "atimes", "hashes", "sourceMaps"]⟩

/-- The empty store. -/
def emptyStore : Store := ⟨[], [], [], []⟩

/-- The oracle under which every backing-store read throws. -/
def allGetFaults : Faults := ⟨fun _ _ => true, fun _ _ => false⟩

/-! ## Round-trip of the JSON runtime model -/

theorem digitCh_spec (n : Nat) (h : n < 10) :
    isDigitCh (digitCh n) = true ∧ (digitCh n).toNat - 48 = n := by
  interval_cases n <;> exact ⟨by decide, by decide⟩

theorem natCharsAux_congr (n : Nat) :
    ∀ f1 f2, n < f1 → n < f2 → natCharsAux f1 n = natCharsAux f2 n := by
  induction n using Nat.strongRecOn with
  | _ n ih =>
    intro f1 f2 h1 h2
    match f1, f2 with
    | g1 + 1, g2 + 1 =>
      by_cases h : n < 10
      · simp [natCharsAux, h]
      · simp only [natCharsAux, if_neg h]
        rw [ih (n / 10) (by omega) g1 g2 (by omega) (by omega)]

theorem natChars_unfold (n : Nat) :
    natChars n = if n < 10 then [digitCh n]
                 else natChars (n / 10) ++ [digitCh (n % 10)] := by
  show natCharsAux (n + 1) n = _
  rw [show natCharsAux (n + 1) n
      = if n < 10 then [digitCh n] else natCharsAux n (n / 10) ++ [digitCh (n % 10)] from rfl]
  by_cases h : n < 10
  · rw [if_pos h, if_pos h]
  · rw [if_neg h, if_neg h,
      natCharsAux_congr (n / 10) n (n / 10 + 1) (by omega) (by omega)]
    rfl

theorem natChars_ne_nil (n : Nat) : natChars n ≠ [] := by
  rw [natChars_unfold]
  by_cases h : n < 10 <;> simp [h]

theorem natChars_digit (n : Nat) : ∀ c ∈ natChars n, isDigitCh c = true := by
  induction n using Nat.strongRecOn with
  | _ n ih =>
    rw [natChars_unfold]
    intro c hc
    by_cases h : n < 10
    · rw [if_pos h] at hc
      rw [List.mem_singleton] at hc
      exact hc ▸ (digitCh_spec n h).1
    · rw [if_neg h, List.mem_append] at hc
      rcases hc with hc | hc
      · exact ih (n / 10) (by omega) c hc
      · rw [List.mem_singleton] at hc
        exact hc ▸ (digitCh_spec (n % 10) (by omega)).1

theorem parseDigitsAux_digit (acc : Nat) (c : Char) (s : List Char)
    (h : isDigitCh c = true) :
    parseDigitsAux acc (c :: s) = parseDigitsAux (acc * 10 + (c.toNat - 48)) s := by
  simp [parseDigitsAux, h]

theorem parseDigitsAux_stop (acc : Nat) (s : List Char) (h : headNotDigit s = true) :
    parseDigitsAux acc s = (acc, s) := by
  match s with
  | [] => rfl
  | c :: t =>
    simp only [headNotDigit, Bool.not_eq_true'] at h
    simp [parseDigitsAux, h]

theorem parseDigitsAux_natChars (n : Nat) :
    ∀ acc s, parseDigitsAux acc (natChars n ++ s)
      = parseDigitsAux (acc * 10 ^ (natChars n).length + n) s := by
  induction n using Nat.strongRecOn with
  | _ n ih =>
    intro acc s
    rw [natChars_unfold]
    by_cases h : n < 10
    · rw [if_pos h]
      simp only [List.cons_append, List.nil_append]
      rw [parseDigitsAux_digit acc (digitCh n) s (digitCh_spec n h).1,
        (digitCh_spec n h).2]
      simp
    · rw [if_neg h]
      rw [List.append_assoc, List.singleton_append,
        ih (n / 10) (by omega) acc (digitCh (n % 10) :: s),
        parseDigitsAux_digit _ (digitCh (n % 10)) s (digitCh_spec (n % 10) (by omega)).1,
        (digitCh_spec (n % 10) (by omega)).2]
      congr 1
      simp only [List.length_append, List.length_singleton]
      rw [pow_succ, ← mul_assoc]
      have key : ∀ A m : Nat, (A + m / 10) * 10 + m % 10 = A * 10 + m := by
        intro A m; omega
      exact key (acc * 10 ^ (natChars (n / 10)).length) n

theorem parseNatTok_natChars (n : Nat) (rest : List Char)
    (h : headNotDigit rest = true) :
    parseNatTok (natChars n ++ rest) = some (n, rest) := by
  obtain ⟨c, t, hct⟩ : ∃ c t, natChars n = c :: t := by
    match hn : natChars n with
    | [] => exact absurd hn (natChars_ne_nil n)
    | c :: t => exact ⟨c, t, rfl⟩
  have hc : isDigitCh c = true := natChars_digit n c (hct ▸ List.mem_cons_self c t)
  rw [hct]
  simp only [List.cons_append, parseNatTok, if_pos hc]
  rw [← List.cons_append, ← hct, parseDigitsAux_natChars, parseDigitsAux_stop _ _ h]
  simp

theorem digit_not_special (c : Char) (h : isDigitCh c = true) :
    c ≠ 'n' ∧ c ≠ 't' ∧ c ≠ 'f' ∧ c ≠ '"' ∧ c ≠ '[' ∧ c ≠ '{' ∧ c ≠ '-' := by
  refine ⟨?_, ?_, ?_, ?_, ?_, ?_, ?_⟩ <;>
    (intro he; subst he; exact absurd h (by decide))

theorem parseNumTok_intChars (i : Int) (rest : List Char)
    (h : headNotDigit rest = true) :
    parseNumTok (intChars i ++ rest) = some (Json.num i, rest) := by
  by_cases hi : i < 0
  · have harg : intChars i ++ rest = '-' :: (natChars i.natAbs ++ rest) := by
      simp [intChars, hi]
    rw [harg]
    simp only [parseNumTok, parseNatTok_natChars i.natAbs rest h, Option.map_some']
    have : -(i.natAbs : Int) = i := by omega
    rw [this]
  · have harg : intChars i ++ rest = natChars i.toNat ++ rest := by
      simp [intChars, hi]
    obtain ⟨c, t, hct⟩ : ∃ c t, natChars i.toNat = c :: t := by
      match hn : natChars i.toNat with
      | [] => exact absurd hn (natChars_ne_nil _)
      | c :: t => exact ⟨c, t, rfl⟩
    have hc : isDigitCh c = true := natChars_digit _ c (hct ▸ List.mem_cons_self c t)
    have hcm : c ≠ '-' := (digit_not_special c hc).2.2.2.2.2.2
    rw [harg, hct, List.cons_append]
    rw [parseNumTok.eq_def]
    split
    · next r heq =>
      rw [List.cons.injEq] at heq
      exact absurd heq.1 hcm
    · rw [← List.cons_append, ← hct, parseNatTok_natChars _ rest h]
      rw [Option.map_some']
      rw [Int.toNat_of_nonneg (by omega)]

theorem parseStrBody_backslash (e d : Char) (t a b : List Char)
    (hu : unescCh e = some d) (hrec : parseStrBody t = some (a, b)) :
    parseStrBody ('\\' :: e :: t) = some (d :: a, b) := by
  rw [parseStrBody.eq_def]
  simp [hu, hrec]

theorem parseStrBody_plain (c : Char) (t a b : List Char)
    (h1 : c ≠ '"') (h2 : c ≠ '\\')
    (hrec : parseStrBody t = some (a, b)) :
    parseStrBody (c :: t) = some (c :: a, b) := by
  rw [parseStrBody.eq_def]
  simp [h1, h2, hrec]

theorem parseStrBody_escaped (s rest : List Char) :
    parseStrBody (s.flatMap escChar ++ '"' :: rest) = some (s, rest) := by
  induction s with
  | nil =>
    rw [List.flatMap_nil, List.nil_append, parseStrBody.eq_def]
    simp
  | cons c cs ih =>
    rw [List.flatMap_cons, List.append_assoc]
    by_cases h1 : c = '"'
    · subst h1
      rw [show escChar '"' = ['\\', '"'] from rfl]
      simp only [List.cons_append, List.nil_append]
      exact parseStrBody_backslash '"' '"' _ cs rest rfl ih
    · by_cases h2 : c = '\\'
      · subst h2
        rw [show escChar '\\' = ['\\', '\\'] from rfl]
        simp only [List.cons_append, List.nil_append]
        exact parseStrBody_backslash '\\' '\\' _ cs rest rfl ih
      · by_cases h3 : c = '\n'
        · subst h3
          rw [show escChar '\n' = ['\\', 'n'] from rfl]
          simp only [List.cons_append, List.nil_append]
          exact parseStrBody_backslash 'n' '\n' _ cs rest rfl ih
        · by_cases h4 : c = '\t'
          · subst h4
            rw [show escChar '\t' = ['\\', 't'] from rfl]
            simp only [List.cons_append, List.nil_append]
            exact parseStrBody_backslash 't' '\t' _ cs rest rfl ih
          · by_cases h5 : c = '\r'
            · subst h5
              rw [show escChar '\r' = ['\\', 'r'] from rfl]
              simp only [List.cons_append, List.nil_append]
              exact parseStrBody_backslash 'r' '\r' _ cs rest rfl ih
            · have hesc : escChar c = [c] := by
                simp [escChar, h1, h2, h3, h4, h5]
              rw [hesc, List.singleton_append]
              exact parseStrBody_plain c _ cs rest h1 h2 ih

theorem parseStrBody_serStr (k : String) (rest : List Char) :
    parseStrBody ((k.data.flatMap escChar ++ ['"']) ++ rest) = some (k.data, rest) := by
  rw [List.append_assoc, List.singleton_append]
  exact parseStrBody_escaped k.data rest

theorem mk_data_eta (s : String) : String.mk s.data = s := rfl

theorem serVal_length_pos (j : Json) : 1 ≤ (serVal j).length := by
  cases j with
  | bool b => cases b <;> simp [serVal]
  | num i =>
    rw [show serVal (.num i) = intChars i from rfl, intChars]
    by_cases hi : i < 0
    · simp [hi]
    · rw [if_neg hi]
      have := natChars_ne_nil i.toNat
      cases hn : natChars i.toNat with
      | nil => exact absurd hn this
      | cons c t => simp [hn]
  | arr js => cases js <;> simp [serVal]
  | obj fs =>
    cases fs with
    | nil => simp [serVal]
    | cons f fs => obtain ⟨k, v⟩ := f; simp [serVal]
  | str s => simp [serVal, serStr]
  | _ => simp [serVal]

theorem serArrTail_length_pos (js : List Json) : 1 ≤ (serArrTail js).length := by
  cases js <;> simp [serArrTail]

theorem serObjTail_length_pos (fs : List (String × Json)) : 1 ≤ (serObjTail fs).length := by
  cases fs with
  | nil => simp [serObjTail]
  | cons f fs => obtain ⟨k, v⟩ := f; simp [serObjTail]

theorem serArrTail_headNotDigit (js : List Json) (rest : List Char) :
    headNotDigit (serArrTail js ++ rest) = true := by
  cases js <;> rfl

theorem serObjTail_headNotDigit (fs : List (String × Json)) (rest : List Char) :
    headNotDigit (serObjTail fs ++ rest) = true := by
  cases fs with
  | nil => rfl
  | cons f fs => obtain ⟨k, v⟩ := f; rfl

theorem digit_ne_rbracket (c : Char) (h : isDigitCh c = true) : ¬(c = ']') := by
  intro he; subst he; exact absurd h (by decide)

theorem serVal_head (j : Json) : ∃ c t, serVal j = c :: t ∧ ¬(c = ']') := by
  cases j with
  | null => exact ⟨'n', _, rfl, by decide⟩
  | bool b => cases b with
    | true => exact ⟨'t', _, rfl, by decide⟩
    | false => exact ⟨'f', _, rfl, by decide⟩
  | str s => exact ⟨'"', _, rfl, by decide⟩
  | arr js => cases js with
    | nil => exact ⟨'[', _, rfl, by decide⟩
    | cons j js => exact ⟨'[', _, rfl, by decide⟩
  | obj fs => cases fs with
    | nil => exact ⟨'{', _, rfl, by decide⟩
    | cons f fs => obtain ⟨k, v⟩ := f; exact ⟨'{', _, rfl, by decide⟩
  | num i =>
    rw [show serVal (.num i) = intChars i from rfl, intChars]
    by_cases hi : i < 0
    · exact ⟨'-', _, by rw [if_pos hi], by decide⟩
    · rw [if_neg hi]
      obtain ⟨c, t, hct⟩ : ∃ c t, natChars i.toNat = c :: t := by
        match hn : natChars i.toNat with
        | [] => exact absurd hn (natChars_ne_nil _)
        | c :: t => exact ⟨c, t, rfl⟩
      have hc : isDigitCh c = true := natChars_digit _ c (hct ▸ List.mem_cons_self c t)
      exact ⟨c, t, hct, digit_ne_rbracket c hc⟩

theorem digit_enum (c : Char) (h : isDigitCh c = true) :
    c = '0' ∨ c = '1' ∨ c = '2' ∨ c = '3' ∨ c = '4' ∨
    c = '5' ∨ c = '6' ∨ c = '7' ∨ c = '8' ∨ c = '9' := by
  simp only [isDigitCh, Bool.and_eq_true, decide_eq_true_eq] at h
  have he : c = Char.ofNat c.toNat := (Char.ofNat_toNat c).symm
  have hv : c.toNat = 48 ∨ c.toNat = 49 ∨ c.toNat = 50 ∨ c.toNat = 51 ∨ c.toNat = 52 ∨
      c.toNat = 53 ∨ c.toNat = 54 ∨ c.toNat = 55 ∨ c.toNat = 56 ∨ c.toNat = 57 := by
    omega
  rcases hv with h1|h1|h1|h1|h1|h1|h1|h1|h1|h1 <;> rw [h1] at he <;> subst he <;> decide

theorem parseVal_digitHead (fuel : Nat) (c : Char) (s : List Char)
    (h : isDigitCh c = true) :
    parseVal (fuel + 1) (c :: s) = parseNumTok (c :: s) := by
  rcases digit_enum c h with rfl|rfl|rfl|rfl|rfl|rfl|rfl|rfl|rfl|rfl <;> rfl

theorem parseVal_num (fuel : Nat) (i : Int) (rest : List Char)
    (h : headNotDigit rest = true) :
    parseVal (fuel + 1) (intChars i ++ rest) = some (Json.num i, rest) := by
  by_cases hi : i < 0
  · have harg : intChars i ++ rest = '-' :: (natChars i.natAbs ++ rest) := by
      simp [intChars, hi]
    rw [harg]
    rw [show parseVal (fuel + 1) ('-' :: (natChars i.natAbs ++ rest))
        = parseNumTok ('-' :: (natChars i.natAbs ++ rest)) from rfl]
    rw [← harg]
    exact parseNumTok_intChars i rest h
  · have harg : intChars i ++ rest = natChars i.toNat ++ rest := by
      simp [intChars, hi]
    obtain ⟨c, t, hct⟩ : ∃ c t, natChars i.toNat = c :: t := by
      match hn : natChars i.toNat with
      | [] => exact absurd hn (natChars_ne_nil _)
      | c :: t => exact ⟨c, t, rfl⟩
    have hc : isDigitCh c = true := natChars_digit _ c (hct ▸ List.mem_cons_self c t)
    rw [harg, hct, List.cons_append, parseVal_digitHead fuel c _ hc]
    rw [← List.cons_append, ← hct, ← harg]
    exact parseNumTok_intChars i rest h

theorem parseVal_arrStep (fuel : Nat) (r : List Char) :
    parseVal (fuel + 1) ('[' :: r)
      = (match r with
         | ']' :: r' => some (Json.arr [], r')
         | _ =>
           match parseVal fuel r with
           | some (j, r') =>
             match parseArrTail fuel r' with
             | some (js, r'') => some (Json.arr (j :: js), r'')
             | none => none
           | none => none) := rfl

theorem parseVal_strStep (fuel : Nat) (r : List Char) :
    parseVal (fuel + 1) ('"' :: r)
      = (parseStrBody r).map fun p => (Json.str (String.mk p.1), p.2) := rfl

theorem parseVal_objStep (fuel : Nat) (r : List Char) :
    parseVal (fuel + 1) ('{' :: '"' :: r)
      = (match parseStrBody r with
         | some (k, r1) =>
           match r1 with
           | ':' :: r2 =>
             match parseVal fuel r2 with
             | some (v, r3) =>
               match parseObjTail fuel r3 with
               | some (fs, r4) => some (Json.obj ((String.mk k, v) :: fs), r4)
               | none => none
             | none => none
           | _ => none
         | none => none) := rfl

theorem parseArrTail_consStep (fuel : Nat) (r : List Char) :
    parseArrTail (fuel + 1) (',' :: r)
      = (match parseVal fuel r with
         | some (j, r') =>
           match parseArrTail fuel r' with
           | some (js, r'') => some (j :: js, r'')
           | none => none
         | none => none) := rfl

theorem parseObjTail_consStep (fuel : Nat) (r : List Char) :
    parseObjTail (fuel + 1) (',' :: '"' :: r)
      = (match parseStrBody r with
         | some (k, r1) =>
           match r1 with
           | ':' :: r2 =>
             match parseVal fuel r2 with
             | some (v, r3) =>
               match parseObjTail fuel r3 with
               | some (fs, r4) => some ((String.mk k, v) :: fs, r4)
               | none => none
             | none => none
           | _ => none
         | none => none) := rfl

mutual

theorem rt_val : ∀ (j : Json) (fuel : Nat) (rest : List Char),
    (serVal j).length < fuel → headNotDigit rest = true →
    parseVal fuel (serVal j ++ rest) = some (j, rest)
  | .null, fuel, rest, hf, _ => by
    match fuel, hf with
    | f + 1, _ => rfl
  | .bool true, fuel, rest, hf, _ => by
    match fuel, hf with
    | f + 1, _ => rfl
  | .bool false, fuel, rest, hf, _ => by
    match fuel, hf with
    | f + 1, _ => rfl
  | .num i, fuel, rest, hf, hr => by
    match fuel, hf with
    | f + 1, _ => exact parseVal_num f i rest hr
  | .str s, fuel, rest, hf, _ => by
    match fuel, hf with
    | f + 1, _ =>
      rw [show serVal (.str s) ++ rest
          = '"' :: ((s.data.flatMap escChar ++ ['"']) ++ rest) from by
        simp [serVal, serStr]]
      rw [parseVal_strStep, parseStrBody_serStr s rest]
      simp [mk_data_eta]
  | .arr [], fuel, rest, hf, _ => by
    match fuel, hf with
    | f + 1, _ => rfl
  | .arr (j :: js), fuel, rest, hf, _ => by
    match fuel, hf with
    | f + 1, hf =>
      have hlen : (serVal j).length + (serArrTail js).length < f := by
        simpa [serVal, List.length_append] using hf
      have h1 : (serVal j).length < f := by
        have := serArrTail_length_pos js; omega
      have h2 : (serArrTail js).length < f := by
        have := serVal_length_pos j; omega
      rw [show serVal (.arr (j :: js)) ++ rest
          = '[' :: (serVal j ++ (serArrTail js ++ rest)) from by
        simp [serVal]]
      rw [parseVal_arrStep]
      obtain ⟨c, t, hct, hcne⟩ := serVal_head j
      rw [hct, List.cons_append]
      split
      · next r' heq =>
        rw [List.cons.injEq] at heq
        exact absurd heq.1 hcne
      · rw [← List.cons_append, ← hct]
        simp only [rt_val j f (serArrTail js ++ rest) h1 (serArrTail_headNotDigit js rest),
          rt_arrTail js f rest h2]
  | .obj [], fuel, rest, hf, _ => by
    match fuel, hf with
    | f + 1, _ => rfl
  | .obj ((k, v) :: fs), fuel, rest, hf, _ => by
    match fuel, hf with
    | f + 1, hf =>
      have hlen : (serStr k).length + ((serVal v).length
          + (serObjTail fs).length + 1) < f := by
        simpa [serVal, List.length_append] using hf
      have h1 : (serVal v).length < f := by
        have := serObjTail_length_pos fs; omega
      have h2 : (serObjTail fs).length < f := by
        have := serVal_length_pos v; omega
      rw [show serVal (.obj ((k, v) :: fs)) ++ rest
          = '{' :: '"' :: ((k.data.flatMap escChar ++ ['"'])
            ++ (':' :: (serVal v ++ (serObjTail fs ++ rest)))) from by
        simp [serVal, serStr]]
      rw [parseVal_objStep, parseStrBody_serStr k _]
      simp only [rt_val v f (serObjTail fs ++ rest) h1 (serObjTail_headNotDigit fs rest),
        rt_objTail fs f rest h2, mk_data_eta]

theorem rt_arrTail : ∀ (js : List Json) (fuel : Nat) (rest : List Char),
    (serArrTail js).length < fuel →
    parseArrTail fuel (serArrTail js ++ rest) = some (js, rest)
  | [], fuel, rest, hf => by
    match fuel, hf with
    | f + 1, _ => rfl
  | j :: js, fuel, rest, hf => by
    match fuel, hf with
    | f + 1, hf =>
      have hlen : (serVal j).length + (serArrTail js).length < f := by
        simpa [serArrTail, List.length_append] using hf
      have h1 : (serVal j).length < f := by
        have := serArrTail_length_pos js; omega
      have h2 : (serArrTail js).length < f := by
        have := serVal_length_pos j; omega
      rw [show serArrTail (j :: js) ++ rest
          = ',' :: (serVal j ++ (serArrTail js ++ rest)) from by
        simp [serArrTail]]
      rw [parseArrTail_consStep]
      simp only [rt_val j f (serArrTail js ++ rest) h1 (serArrTail_headNotDigit js rest),
        rt_arrTail js f rest h2]

theorem rt_objTail : ∀ (fs : List (String × Json)) (fuel : Nat) (rest : List Char),
    (serObjTail fs).length < fuel →
    parseObjTail fuel (serObjTail fs ++ rest) = some (fs, rest)
  | [], fuel, rest, hf => by
    match fuel, hf with
    | f + 1, _ => rfl
  | (k, v) :: fs, fuel, rest, hf => by
    match fuel, hf with
    | f + 1, hf =>
      have hlen : (serStr k).length + ((serVal v).length
          + (serObjTail fs).length + 1) < f := by
        simpa [serObjTail, List.length_append] using hf
      have h1 : (serVal v).length < f := by
        have := serObjTail_length_pos fs; omega
      have h2 : (serObjTail fs).length < f := by
        have := serVal_length_pos v; omega
      rw [show serObjTail ((k, v) :: fs) ++ rest
          = ',' :: '"' :: ((k.data.flatMap escChar ++ ['"'])
            ++ (':' :: (serVal v ++ (serObjTail fs ++ rest)))) from by
        simp [serObjTail, serStr]]
      rw [parseObjTail_consStep, parseStrBody_serStr k _]
      simp only [rt_val v f (serObjTail fs ++ rest) h1 (serObjTail_headNotDigit fs rest),
        rt_objTail fs f rest h2, mk_data_eta]

end

/-- The round trip of the modelled JSON runtime: parsing a serialized
value recovers it exactly. -/
theorem parseJson_jsStringify (j : Json) : parseJson (jsStringify j) = some j := by
  have h := rt_val j ((serVal j).length + 1) [] (Nat.lt_succ_self _) rfl
  rw [List.append_nil] at h
  simp only [parseJson, jsStringify]
  rw [h]

/-! ## The claims -/

/-- C2: after `update(P, {filehash: H, code: C, map: M})` completes with
no storage errors, `getFileHash(P)` returns `H`, `getCode(P)` returns
`C`, and `getSourceMap(P)` returns a value deep-equal to `M`. -/
theorem c2_update_roundTrip (env : Env) (inst : CacheInst) (path : String)
    (hash code : String) (m : Json) (st : Store) :
    (update env noFaults inst path ⟨hash, code, .json m⟩ st).rejected = none
    ∧ (getFileHash env noFaults inst path
        (update env noFaults inst path ⟨hash, code, .json m⟩ st).store).1 = some hash
    ∧ (getCode env noFaults inst path
        (update env noFaults inst path ⟨hash, code, .json m⟩ st).store).1 = some code
    ∧ getSourceMap env noFaults inst path
        (update env noFaults inst path ⟨hash, code, .json m⟩ st).store
      = Except.ok (some m) := by
  refine ⟨rfl, ?_, ?_, ?_⟩
  · simp [update, getFileHash, safeGet, safePut, noFaults, nsGet, nsSet,
      jsStringifyVal, putEntry, List.lookup]
  · simp [update, getCode, safeGet, safePut, noFaults, nsGet, nsSet,
      jsStringifyVal, putEntry, List.lookup]
  · simp [update, getSourceMap, safeGet, safePut, noFaults, nsGet, nsSet,
      jsStringifyVal, putEntry, List.lookup, parseJson_jsStringify]

/-- C5: for every combination of backing-store write failures among the
four namespace writes, `update` resolves (never rejects); every write is
attempted, and a failing write leaves its namespace untouched without
blocking or rolling back the other three. -/
theorem c5_update_resolves (env : Env) (faults : Faults) (inst : CacheInst)
    (path : String) (hash code : String) (m : Json) (st : Store) :
    (update env faults inst path ⟨hash, code, .json m⟩ st).rejected = none
    ∧ (update env faults inst path ⟨hash, code, .json m⟩ st).store.atimes.lookup
        (getKey env inst path)
      = (if faults.putFault .atimes (getKey env inst path)
         then st.atimes.lookup (getKey env inst path) else some env.globalAtime)
    ∧ (update env faults inst path ⟨hash, code, .json m⟩ st).store.hashes.lookup
        (getKey env inst path)
      = (if faults.putFault .hashes (getKey env inst path)
         then st.hashes.lookup (getKey env inst path) else some hash)
    ∧ (update env faults inst path ⟨hash, code, .json m⟩ st).store.codes.lookup
        (getKey env inst path)
      = (if faults.putFault .codes (getKey env inst path)
         then st.codes.lookup (getKey env inst path) else some code)
    ∧ (update env faults inst path ⟨hash, code, .json m⟩ st).store.sourceMaps.lookup
        (getKey env inst path)
      = (if faults.putFault .sourceMaps (getKey env inst path)
         then st.sourceMaps.lookup (getKey env inst path) else some (jsStringify m)) := by
  refine ⟨rfl, ?_, ?_, ?_, ?_⟩ <;>
    (by_cases h1 : faults.putFault .atimes (getKey env inst path) <;>
     by_cases h2 : faults.putFault .hashes (getKey env inst path) <;>
     by_cases h3 : faults.putFault .codes (getKey env inst path) <;>
     by_cases h4 : faults.putFault .sourceMaps (getKey env inst path) <;>
     simp [update, safePut, h1, h2, h3, h4, nsGet, nsSet, jsStringifyVal,
       putEntry, List.lookup])

/-- C6: when the backing store throws on a `get`, the public reads
return absent and do not propagate the exception. -/
theorem c6_get_fault_isolation (env : Env) (faults : Faults) (inst : CacheInst)
    (path : String) (st : Store)
    (hh : faults.getFault .hashes (getKey env inst path) = true)
    (hc : faults.getFault .codes (getKey env inst path) = true)
    (hs : faults.getFault .sourceMaps (getKey env inst path) = true) :
    (getFileHash env faults inst path st).1 = none
    ∧ (getCode env faults inst path st).1 = none
    ∧ getSourceMap env faults inst path st = Except.ok none := by
  refine ⟨?_, ?_, ?_⟩
  · simp [getFileHash, safeGet, hh]
  · simp [getCode, safeGet, hc]
  · simp [getSourceMap, safeGet, hs]

/-- C6 witness: under the all-reads-throw oracle, every public read of
the sample instance returns absent. -/
theorem c6_get_fault_isolation_witness :
    (getFileHash sampleEnv allGetFaults repoInst "/repo/a.ts" emptyStore).1 = none
    ∧ (getCode sampleEnv allGetFaults repoInst "/repo/a.ts" emptyStore).1 = none
    ∧ getSourceMap sampleEnv allGetFaults repoInst "/repo/a.ts" emptyStore
      = Except.ok none :=
  c6_get_fault_isolation sampleEnv allGetFaults repoInst "/repo/a.ts" emptyStore
    rfl rfl rfl

/-- C7: a `getCode` hit writes the generation marker into `atimes` for
the derived key (and touches nothing else); a miss writes nothing; and
`getFileHash` never writes, hit or miss. -/
theorem c7_access_marker (env : Env) (faults : Faults) (inst : CacheInst)
    (path : String) (st : Store)
    (hput : faults.putFault .atimes (getKey env inst path) = false) :
    ((safeGet faults .codes (getKey env inst path) st).isSome = true →
      (getCode env faults inst path st).2.atimes.lookup (getKey env inst path)
          = some env.globalAtime
      ∧ (getCode env faults inst path st).2.hashes = st.hashes
      ∧ (getCode env faults inst path st).2.codes = st.codes
      ∧ (getCode env faults inst path st).2.sourceMaps = st.sourceMaps)
    ∧ (safeGet faults .codes (getKey env inst path) st = none →
        (getCode env faults inst path st).2 = st)
    ∧ (getFileHash env faults inst path st).2 = st := by
  refine ⟨?_, ?_, rfl⟩
  · intro hhit
    match hv : safeGet faults .codes (getKey env inst path) st with
    | some c =>
      refine ⟨?_, ?_, ?_, ?_⟩ <;>
        simp [getCode, hv, safePut, hput, nsGet, nsSet, putEntry, List.lookup]
    | none => rw [hv] at hhit; simp at hhit
  · intro hmiss
    simp [getCode, hmiss]

/-- C7 witness: on a concrete hit the marker is written; on a concrete
miss and for `getFileHash` the store is unchanged. -/
theorem c7_access_marker_witness :
    (getCode sampleEnv noFaults repoInst "/repo/a.ts"
        ⟨[], [], [("v1:a.ts", "C")], []⟩).2.atimes.lookup
        (getKey sampleEnv repoInst "/repo/a.ts") = some sampleEnv.globalAtime
    ∧ (getCode sampleEnv noFaults repoInst "/repo/b.ts"
        ⟨[], [], [("v1:a.ts", "C")], []⟩).2 = ⟨[], [], [("v1:a.ts", "C")], []⟩
    ∧ (getFileHash sampleEnv noFaults repoInst "/repo/a.ts"
        ⟨[], [], [("v1:a.ts", "C")], []⟩).2 = ⟨[], [], [("v1:a.ts", "C")], []⟩ :=
  ⟨((c7_access_marker sampleEnv noFaults repoInst "/repo/a.ts"
      ⟨[], [], [("v1:a.ts", "C")], []⟩ rfl).1 rfl).1,
   (c7_access_marker sampleEnv noFaults repoInst "/repo/b.ts"
      ⟨[], [], [("v1:a.ts", "C")], []⟩ rfl).2.1 rfl,
   (c7_access_marker sampleEnv noFaults repoInst "/repo/a.ts"
      ⟨[], [], [("v1:a.ts", "C")], []⟩ rfl).2.2⟩

/-- C8: construction fails with the configuration error (and opens no
store handles) exactly when some supplied root is not absolute. -/
theorem c8_construction_validation (config : CacheConfig) :
    (¬ (configRoots config.pathRoot).all isAbsolutePath = true →
      cacheConstructor config = Except.error absRootError)
    ∧ ((configRoots config.pathRoot).all isAbsolutePath = true →
      cacheConstructor config = Except.ok
        ⟨configRoots config.pathRoot, config.cachePrefix,
          ["codes", "atimes", "hashes", "sourceMaps"]⟩) := by
  constructor <;> intro h <;> simp [cacheConstructor, h]

/-- C8 witness: a relative root makes construction throw before any
handle is opened; absolute roots construct successfully. -/
theorem c8_construction_validation_witness :
    cacheConstructor ⟨.single "relative/root", "p"⟩ = Except.error absRootError
    ∧ cacheConstructor ⟨.many ["/abs"], "p"⟩ = Except.ok
        ⟨["/abs"], "p", ["codes", "atimes", "hashes", "sourceMaps"]⟩ :=
  ⟨(c8_construction_validation ⟨.single "relative/root", "p"⟩).1 (by decide),
   (c8_construction_validation ⟨.many ["/abs"], "p"⟩).2 (by decide)⟩

/-- C10: when `JSON.stringify(file.map)` throws, `update`'s promise
rejects with that exception, yet the `atimes`, `hashes` and `codes`
writes were already initiated (argument evaluation order) and complete,
while `sourceMaps` is left unchanged. -/
theorem c10_update_not_atomic (env : Env) (inst : CacheInst) (path : String)
    (hash code : String) (m : MapVal) (e : String) (st : Store)
    (hser : jsStringifyVal m = Except.error e) :
    (update env noFaults inst path ⟨hash, code, m⟩ st).rejected = some e
    ∧ (update env noFaults inst path ⟨hash, code, m⟩ st).store.atimes.lookup
        (getKey env inst path) = some env.globalAtime
    ∧ (update env noFaults inst path ⟨hash, code, m⟩ st).store.hashes.lookup
        (getKey env inst path) = some hash
    ∧ (update env noFaults inst path ⟨hash, code, m⟩ st).store.codes.lookup
        (getKey env inst path) = some code
    ∧ (update env noFaults inst path ⟨hash, code, m⟩ st).store.sourceMaps
      = st.sourceMaps := by
  refine ⟨?_, ?_, ?_, ?_, ?_⟩ <;>
    simp [update, hser, safePut, noFaults, nsGet, nsSet, putEntry, List.lookup]

/-- C10 witness: a cyclic map value at concrete inputs. -/
theorem c10_update_not_atomic_witness :
    (update sampleEnv noFaults repoInst "/repo/a.ts"
        ⟨"h1", "C1", .cyclic⟩ emptyStore).rejected = some circularError
    ∧ (update sampleEnv noFaults repoInst "/repo/a.ts"
        ⟨"h1", "C1", .cyclic⟩ emptyStore).store.atimes.lookup
        (getKey sampleEnv repoInst "/repo/a.ts") = some sampleEnv.globalAtime
    ∧ (update sampleEnv noFaults repoInst "/repo/a.ts"
        ⟨"h1", "C1", .cyclic⟩ emptyStore).store.hashes.lookup
        (getKey sampleEnv repoInst "/repo/a.ts") = some "h1"
    ∧ (update sampleEnv noFaults repoInst "/repo/a.ts"
        ⟨"h1", "C1", .cyclic⟩ emptyStore).store.codes.lookup
        (getKey sampleEnv repoInst "/repo/a.ts") = some "C1"
    ∧ (update sampleEnv noFaults repoInst "/repo/a.ts"
        ⟨"h1", "C1", .cyclic⟩ emptyStore).store.sourceMaps = emptyStore.sourceMaps :=
  c10_update_not_atomic sampleEnv repoInst "/repo/a.ts" "h1" "C1" .cyclic
    circularError emptyStore rfl

/-- C4 counterexample: with a lone opening brace (not valid JSON) stored under the
derived key, `getSourceMap` propagates the parse exception — refuting
the claim that no exception reaches the caller. -/
theorem c4_counterexample_parse_throws :
    (⟨[], [], [], [("v1:a.ts", "\x7b")]⟩ : Store).sourceMaps.lookup
        (getKey sampleEnv repoInst "/repo/a.ts") = some "\x7b"
    ∧ parseJson "\x7b" = none
    ∧ getSourceMap sampleEnv noFaults repoInst "/repo/a.ts"
        ⟨[], [], [], [("v1:a.ts", "\x7b")]⟩ = Except.error jsonSyntaxError :=
  ⟨rfl, rfl, rfl⟩

/-- C4 (amended): when the stored `sourceMaps` value fails to parse as
JSON, `getSourceMap` propagates the parse exception to the caller
(the source's `JSON.parse` call is unguarded). -/
theorem c4_amended_parse_propagates (env : Env) (inst : CacheInst) (path : String)
    (st : Store) (s : String)
    (hstored : st.sourceMaps.lookup (getKey env inst path) = some s)
    (hbad : parseJson s = none) :
    getSourceMap env noFaults inst path st = Except.error jsonSyntaxError := by
  simp [getSourceMap, safeGet, noFaults, nsGet, hstored, hbad]

/-- C4 witness: the amended behaviour at the concrete malformed store. -/
theorem c4_amended_parse_propagates_witness :
    getSourceMap sampleEnv noFaults repoInst "/repo/a.ts"
        ⟨[], [], [], [("v1:a.ts", "\x7b")]⟩ = Except.error jsonSyntaxError :=
  c4_amended_parse_propagates sampleEnv repoInst "/repo/a.ts"
    ⟨[], [], [], [("v1:a.ts", "\x7b")]⟩ "\x7b" rfl rfl

/-- C3: the derived cache key equals the prefix concatenated with the
path of the resolved input relative to the first configured root that
is an ancestor of it — or to the first root when none is — with every
host separator replaced by `'/'` (the spec-side computation `specKey`). -/
theorem c3_getKey_matches_spec (env : Env) (inst : CacheInst) (path : String)
    (habs : ∀ r ∈ inst.pathRoots, isAbsolutePath r = true) :
    getKey env inst path = specKey env inst.pathRoots inst.cachePrefix path := by
  have hrep : ∀ t : String, replaceSepBySlash '/' t = t := by
    intro t
    have hid : (fun c : Char => if c = '/' then '/' else c) = id := by
      funext c
      by_cases hc : c = '/' <;> simp [hc]
    simp only [replaceSepBySlash, hid, List.map_id]
  cases hfind : inst.pathRoots.find?
      (fun r => isAncestorRoot env.cwd r (resolvePath env.cwd path)) with
  | some r =>
    have hr : r ∈ inst.pathRoots := List.mem_of_find?_eq_some hfind
    have habsr : isAbsolutePath r = true := habs r hr
    have hrne : ¬(r = "") := by
      intro he
      subst he
      simp [isAbsolutePath] at habsr
    simp [getKey, specKey, getMatchingRoot, hfind, hrne, hrep, hostSep]
  | none =>
    simp [getKey, specKey, getMatchingRoot, hfind, hrep, hostSep]

/-- C3 witness: the derived key agrees with the spec computation at a
concrete environment, instance and path. -/
theorem c3_getKey_matches_spec_witness :
    getKey sampleEnv repoInst "/repo/src/a.ts"
      = specKey sampleEnv repoInst.pathRoots repoInst.cachePrefix "/repo/src/a.ts" :=
  c3_getKey_matches_spec sampleEnv repoInst "/repo/src/a.ts" (by decide)

/-- C9: key derivation is not injective with two roots: distinct paths
under different roots with the same root-relative path share one key,
so an update for one overwrites the other's cached entries. -/
theorem c9_key_not_injective :
    ("/a/x.ts" : String) ≠ "/b/x.ts"
    ∧ ("/a" : String) ≠ "/b"
    ∧ getKey sampleEnv twoRootInst "/a/x.ts" = getKey sampleEnv twoRootInst "/b/x.ts"
    ∧ (getCode sampleEnv noFaults twoRootInst "/b/x.ts"
        (update sampleEnv noFaults twoRootInst "/a/x.ts"
          ⟨"h1", "CODE_A", .json .null⟩
          ⟨[], [], [("p:x.ts", "OLD_B")], []⟩).store).1 = some "CODE_A" :=
  ⟨by decide, by decide, rfl, rfl⟩

/-- C1 (divergence witness): a single stale `atimes` entry — here with
an unparsable timestamp, which the sweep classifies stale — is left in
all four namespaces by `pruneOldKeys`, because the loop flushes
removals only when a full batch of 1000 classifications accumulates and
the final partial batch is abandoned. -/
theorem c1_prune_misses_stale_tail :
    staleEntry (1760000000000 - 30 * dayMs) "not-a-number" = true
    ∧ pruneOldKeys 1760000000000
        ⟨[("k", "not-a-number")], [("k", "h")], [("k", "c")], [("k", "m")]⟩
      = ⟨[("k", "not-a-number")], [("k", "h")], [("k", "c")], [("k", "m")]⟩ :=
  ⟨rfl, rfl⟩
